import Mathlib

/-!
# Verification of the NewsGenie NLP pipeline client (`src/scraping.py`)

Shallow embedding of the single source file `scraping.py`:

* `Json` models Python values as produced by `json` parsing (Python `None`
  is `Json.null`; numbers restricted to integers, the only numeric kind in
  the claims' scope).
* `Article.from_dict` embeds `Article.from_dict`.
* `initClient` / `runRetry` embed `NewsApiClient.__init__` and the
  `backoff.on_exception`-wrapped `fetch_everything` (3 attempts, retried on
  `requests.exceptions.RequestException`; note that
  `requests.exceptions.JSONDecodeError` subclasses both `RequestException`
  (via `InvalidJSONError`) and `ValueError` (via `json.JSONDecodeError`),
  so `backoff` retries it and `main`'s first handler, `except ValueError`,
  catches it).
* `NewsDataExporter.getFilename`, `save_json`, `save_csv` embed the exporter
  (paths modelled as verbatim strings, no filesystem normalisation; a CSV
  file is modelled as the list of records handed to `csv.writer.writerow`,
  with cells at the Python-value level).
* `contentPreviewLine` / `fullContentLine` embed the content rendering in
  `display_results` and the `--full-content` branch of `main`.
* `dumpVal` embeds `json.dump(data, f, ensure_ascii=False, indent=2)`;
  `load_from_text` is the Data Loader's JSON reader.
-/

/-- A Python value in the image of `json` parsing: `null` is Python `None`,
numbers restricted to integers. -/
inductive Json where
  | null : Json
  | bool : Bool → Json
  | int : Int → Json
  | str : String → Json
  | arr : List Json → Json
  | obj : List (String × Json) → Json

/-- Python truthiness (`bool(v)`) on `Json` values. -/
def pyTruthy : Json → Bool
  | .null => false
  | .bool b => b
  | .int n => n ≠ 0
  | .str s => s ≠ ""
  | .arr xs => ¬ xs.isEmpty
  | .obj kvs => ¬ kvs.isEmpty

/-- Python `a or b` on values. -/
def pyOr (a b : Json) : Json := if pyTruthy a then a else b

/-- Python `dict.get(k, d)`: first binding of `k`, else the default. -/
def dictGetD (kvs : List (String × Json)) (k : String) (d : Json) : Json :=
  match kvs.find? (fun p => p.1 = k) with
  | some p => p.2
  | none => d

/-- Key lookup without a default (`dict.get(k)` returns `None` if absent,
indistinguishable from a stored JSON `null`). -/
def dictGet (kvs : List (String × Json)) (k : String) : Json :=
  dictGetD kvs k Json.null

/-- Exceptions raised by the embedded code paths. `valueError` is the
missing-credential error of `NewsApiClient.__init__` (the spec's
`ConfigError`); `transportError`, `httpError` and `jsonDecodeError` are the
`requests` exceptions that can escape `fetch_everything`. -/
inductive PyErr where
  | valueError : PyErr
  | attributeError : PyErr
  | transportError : PyErr
  | httpError : Nat → PyErr
  | jsonDecodeError : PyErr
deriving DecidableEq

/-- `v.get(k, d)` where `v` is an arbitrary value: Python raises
`AttributeError` unless `v` is a dict. -/
def jsonGetD (v : Json) (k : String) (d : Json) : Except PyErr Json :=
  match v with
  | .obj kvs => .ok (dictGetD kvs k d)
  | _ => .error .attributeError

/-- The `Article` dataclass; fields hold the Python values the constructor
receives (annotations are not enforced at runtime). -/
structure Article where
  title : Json
  source : Json
  source_id : Json
  author : Json
  description : Json
  url : Json
  url_to_image : Json
  published_at : Json
  content : Json

/-- `Article.from_dict(data)`: `data.get('title', '')` and friends, with
`data.get('source', {}).get(...)` faulting when the stored `source` value is
not a dict. -/
def Article.from_dict (data : List (String × Json)) : Except PyErr Article := do
  let srcVal := dictGetD data "source" (Json.obj [])
  let sourceName ← jsonGetD srcVal "name" (Json.str "")
  let sourceId ← jsonGetD srcVal "id" Json.null
  pure
    { title := dictGetD data "title" (Json.str "")
      source := sourceName
      source_id := sourceId
      author := dictGet data "author"
      description := dictGet data "description"
      url := dictGetD data "url" (Json.str "")
      url_to_image := dictGet data "urlToImage"
      published_at := dictGetD data "publishedAt" (Json.str "")
      content := dictGet data "content" }

/-- `NewsApiClient.__init__`: `self.api_key = api_key or os.getenv("NEWS_API_KEY")`
followed by `if not self.api_key: raise ValueError(...)`. Returns the stored
key. An argument of `some ""` models passing an empty string, `none` models
not passing the parameter; likewise for the environment variable. -/
def initClient (api_key env_key : Option String) : Except PyErr String :=
  let k : Option String :=
    match api_key with
    | some s => if s ≠ "" then some s else env_key
    | none => env_key
  match k with
  | some s => if s = "" then .error .valueError else .ok s
  | none => .error .valueError

/-- The body a fetch attempt observes: a JSON document or malformed bytes. -/
inductive Body where
  | valid : Json → Body
  | invalid : Body

/-- Outcome of one HTTP call: transport failure, or a response with a
status code and body. -/
inductive Attempt where
  | transportErr : Attempt
  | response : Nat → Body → Attempt

/-- One execution of the body of `fetch_everything`: `requests.get` may
raise a transport error; `response.raise_for_status()` raises `HTTPError`
for 4XX/5XX; `response.json()` raises `requests.exceptions.JSONDecodeError`
on a malformed body. -/
def oneAttempt : Attempt → Except PyErr Json
  | .transportErr => .error .transportError
  | .response st body =>
    if 400 ≤ st ∧ st < 600 then .error (.httpError st)
    else
      match body with
      | .valid j => .ok j
      | .invalid => .error .jsonDecodeError

/-- Whether an exception is an instance of
`requests.exceptions.RequestException` — the class the `backoff` decorator
catches. `JSONDecodeError` is a subclass via `InvalidJSONError`. -/
def isRequestException : PyErr → Bool
  | .transportError => true
  | .httpError _ => true
  | .jsonDecodeError => true
  | .valueError => false
  | .attributeError => false

/-- Whether an exception is an instance of `ValueError`.
`requests.exceptions.JSONDecodeError` multiply inherits from
`InvalidJSONError` and from `json.JSONDecodeError`, and the latter
subclasses `ValueError`, so it is an instance of both `RequestException`
and `ValueError`. -/
def isValueError : PyErr → Bool
  | .valueError => true
  | .jsonDecodeError => true
  | .transportError => false
  | .httpError _ => false
  | .attributeError => false

/-- `backoff.on_exception(backoff.expo, (RequestException, HTTPError),
max_tries=3)` around the attempt body: retry while the raised exception is
caught and tries remain. `net i` is the outcome of the `i`-th HTTP call;
the second component counts HTTP calls issued. -/
def runRetry (net : Nat → Attempt) (i : Nat) : Nat → Except PyErr Json × Nat
  | 0 => (.error .transportError, 0)
  | 1 => (oneAttempt (net i), 1)
  | t + 2 =>
    match oneAttempt (net i) with
    | .ok j => (.ok j, 1)
    | .error e =>
      if isRequestException e then
        let r := runRetry net (i + 1) (t + 1)
        (r.1, r.2 + 1)
      else (.error e, 1)

/-- The remote-fetch path of `main`: construct `NewsApiClient` then call
`fetch_everything` (with its retry wrapper). Constructor failure happens
before any HTTP call, hence the call count 0. -/
def remoteFetch (api_key env_key : Option String) (net : Nat → Attempt) :
    Except PyErr Json × Nat :=
  match initClient api_key env_key with
  | .error e => (.error e, 0)
  | .ok _ => runRetry net 0 3

/-- The failure categories visible at the top of `main`, in handler order:
`except ValueError` first (the clause the spec's `ConfigError` case lands
in, but it catches any `ValueError`), then `except RequestException`
(logged "Network error"), then `except Exception` (unexpected). -/
inductive ErrCategory where
  | configError : ErrCategory
  | networkError : ErrCategory
  | unexpectedError : ErrCategory
deriving DecidableEq

/-- Which `except` clause of `main` catches each exception: Python takes
the first matching clause, and `except ValueError` precedes
`except RequestException` (scraping.py lines 286 and 289), so a
`JSONDecodeError` — a `ValueError` through `json.JSONDecodeError` — is
caught by the first clause. -/
def errCategory (e : PyErr) : ErrCategory :=
  if isValueError e then .configError
  else if isRequestException e then .networkError
  else .unexpectedError

/-! ## Exporter -/

/-- The chars of the final path component (after the last `/`). -/
def lastComponent : List Char → List Char
  | [] => []
  | c :: cs =>
    if cs.contains '/' then lastComponent cs
    else if c = '/' then cs
    else c :: cs

/-- Index of the last `.` in a char list, if any. -/
def lastDotIdx : List Char → Option Nat
  | [] => none
  | c :: cs =>
    match lastDotIdx cs with
    | some i => some (i + 1)
    | none => if c = '.' then some 0 else none

/-- `pathlib.PurePath.suffix` on the name chars: the part from the last dot,
provided that dot is neither first nor last. -/
def suffixChars (name : List Char) : List Char :=
  match lastDotIdx name with
  | some i => if 0 < i ∧ i + 1 < name.length then name.drop i else []
  | none => []

/-- `Path(base).suffix`: suffix of the final path component. -/
def pySuffix (base : String) : String :=
  ⟨suffixChars (lastComponent base.data)⟩

/-- `NewsDataExporter`: `output_dir` and the run timestamp fixed in
`__init__` (`datetime.now().strftime(...)`, one value per exporter). -/
structure NewsDataExporter where
  output_dir : String
  timestamp : String
deriving DecidableEq

/-- A resolved output path `self.output_dir / filename` (kept as the pair,
verbatim, with no filesystem normalisation). -/
structure RelPath where
  dir : String
  name : String
deriving DecidableEq

/-- `NewsDataExporter._get_filename(base_name, extension)`: `if base_name:`
(so `None` and `""` both fall to the default name); a provided name without
a suffix gets `.{extension}` appended via `with_suffix`; otherwise it is
kept as is. Returns the name part; the full path is `output_dir / name`. -/
def NewsDataExporter.getFilename (e : NewsDataExporter)
    (base_name : Option String) (extension : String) : String :=
  match base_name with
  | some b =>
    if b ≠ "" then
      if pySuffix b = "" then b ++ "." ++ extension else b
    else "news_data_" ++ e.timestamp ++ "." ++ extension
  | none => "news_data_" ++ e.timestamp ++ "." ++ extension

/-- Result of `save_csv`: the returned path, the file written (`none` when
no file is created), and whether the "No articles to save" warning fired. -/
structure CsvSaveResult where
  path : RelPath
  file : Option (List (List Json))
  warned : Bool

/-- The header row `save_csv` writes. -/
def csvHeader : List Json :=
  [.str "title", .str "source", .str "source_id", .str "author",
   .str "description", .str "url", .str "url_to_image", .str "publishedAt",
   .str "content"]

/-- The row `save_csv` writes for one article (`x or ''` on the optional
fields). -/
def Article.csvRow (a : Article) : List Json :=
  [a.title, a.source, pyOr a.source_id (.str ""), pyOr a.author (.str ""),
   pyOr a.description (.str ""), a.url, pyOr a.url_to_image (.str ""),
   a.published_at, pyOr a.content (.str "")]

/-- `NewsDataExporter.save_csv`: on an empty list it logs the warning and
returns the path without opening the file; otherwise it writes the header
record and one record per article. -/
def NewsDataExporter.save_csv (e : NewsDataExporter) (articles : List Article)
    (filename : Option String) : CsvSaveResult :=
  let p : RelPath := ⟨e.output_dir, e.getFilename filename "csv"⟩
  if articles.isEmpty then ⟨p, none, true⟩
  else ⟨p, some (csvHeader :: articles.map Article.csvRow), false⟩

/-! ## Presenter -/

/-- Split at the first occurrence of the truncation marker `"[+"`: returns
`some (pre, post)` with the input equal to `pre ++ "[+" ++ post` and `pre`
marker-free, or `none` when the marker does not occur. -/
def findMarker : List Char → Option (List Char × List Char)
  | [] => none
  | c :: cs =>
    if c = '[' ∧ cs.head? = some '+' then some ([], cs.tail)
    else
      match findMarker cs with
      | some (p, q) => some (c :: p, q)
      | none => none

/-- Python `'[+' in content`. -/
def hasMarker (content : String) : Bool := (findMarker content.data).isSome

/-- Python `content.split('[+')[0]`. -/
def splitMarkerHead (content : String) : String :=
  match findMarker content.data with
  | some (p, _) => ⟨p⟩
  | none => content

/-- The preview text `display_results` shows:
`content.split('[+')[0] if '[+' in content else content`. -/
def previewOf (content : String) : String :=
  if hasMarker content then splitMarkerHead content else content

/-- The console line `display_results` prints for a truthy content. -/
def contentPreviewLine (content : String) : String :=
  "   [yellow]Content Preview:[/yellow] " ++ previewOf content

/-- The console line the `--full-content` branch of `main` prints for a
truthy content. -/
def fullContentLine (content : String) : String :=
  "[yellow]Content:[/yellow] " ++ content

/-- Generic substring test (`needle` occurs contiguously in `hay`). -/
def leadsWith : List Char → List Char → Bool
  | [], _ => true
  | _ :: _, [] => false
  | a :: as_, b :: bs => a = b && leadsWith as_ bs

/-- Whether `pat` occurs as a contiguous substring. -/
def occursIn (pat : List Char) : List Char → Bool
  | [] => leadsWith pat []
  | c :: cs => leadsWith pat (c :: cs) || occursIn pat cs

/-- String-level substring test. -/
def strOccursIn (pat s : String) : Bool := occursIn pat.data s.data

/-! ## Concrete sample values used by witnesses and counterexamples -/

/-- A concrete exporter (fixed run timestamp). -/
def exSample : NewsDataExporter := ⟨"out", "20250101_120000"⟩

/-- An article with every optional field absent (Python `None`). -/
def artSample : Article :=
  ⟨.str "t", .str "s", .null, .null, .null, .str "u", .null, .str "2025", .null⟩

/-- A network behaviour whose first call yields a 200 response with a
malformed body and whose second call yields a 200 response with a valid
JSON body. -/
def netInvalidThenOk : Nat → Attempt := fun i =>
  if i = 0 then .response 200 .invalid else .response 200 (.valid (Json.obj []))

/-- A network behaviour in which every call returns 200 with a malformed
body. -/
def netAlwaysInvalid : Nat → Attempt := fun _ => .response 200 .invalid

/-! ## JSON serialisation (`json.dump(data, f, ensure_ascii=False, indent=2)`) -/

/-- Indentation emitted at nesting level `l` (`indent=2`). -/
def indentChars (l : Nat) : List Char := List.replicate (2 * l) ' '

/-- Decimal digit character (callers only use arguments below 10). -/
def digitChar : Nat → Char
  | 0 => '0' | 1 => '1' | 2 => '2' | 3 => '3' | 4 => '4'
  | 5 => '5' | 6 => '6' | 7 => '7' | 8 => '8' | 9 => '9'
  | _ => '0'

/-- Decimal digits of `n`, most significant first; fuel-driven so that it
computes by kernel reduction (`natCharsAux (n+1) n` always has enough
fuel). -/
def natCharsAux : Nat → Nat → List Char
  | 0, _ => []
  | f + 1, n => if n < 10 then [digitChar n] else natCharsAux f (n / 10) ++ [digitChar (n % 10)]

/-- Decimal representation of a natural number. -/
def natChars (n : Nat) : List Char := natCharsAux (n + 1) n

/-- Decimal representation of an integer (Python `repr` of an `int`). -/
def intChars : Int → List Char
  | .ofNat m => natChars m
  | .negSucc m => '-' :: natChars (m + 1)

/-- Lowercase hex digit (callers only use arguments below 16). -/
def hexDigitChar : Nat → Char
  | 0 => '0' | 1 => '1' | 2 => '2' | 3 => '3' | 4 => '4'
  | 5 => '5' | 6 => '6' | 7 => '7' | 8 => '8' | 9 => '9'
  | 10 => 'a' | 11 => 'b' | 12 => 'c' | 13 => 'd' | 14 => 'e' | 15 => 'f'
  | _ => '0'

/-- `json.encoder.py_encode_basestring` on one character with
`ensure_ascii=False`: escape the quote, the backslash and control
characters (named escapes for the usual ones, `\u00XX` otherwise); every
other character — non-ASCII included — is kept verbatim. -/
def escChar (c : Char) : List Char :=
  if c = '"' then ['\\', '"']
  else if c = '\\' then ['\\', '\\']
  else if c = '\n' then ['\\', 'n']
  else if c = '\t' then ['\\', 't']
  else if c = '\r' then ['\\', 'r']
  else if c.toNat = 8 then ['\\', 'b']
  else if c.toNat = 12 then ['\\', 'f']
  else if c.toNat < 32 then
    ['\\', 'u', '0', '0', hexDigitChar (c.toNat / 16), hexDigitChar (c.toNat % 16)]
  else [c]

/-- Escape a whole character sequence. -/
def escapeChars : List Char → List Char
  | [] => []
  | c :: cs => escChar c ++ escapeChars cs

/-- A JSON string literal. -/
def strLit (s : String) : List Char := '"' :: (escapeChars s.data ++ ['"'])

mutual

/-- `json.dump` output at nesting level `l`: newline-separated items
indented two spaces per level, `", "`-free item separator, `": "` key
separator, empty containers printed inline. -/
def dumpVal : Nat → Json → List Char
  | _, .null => ['n', 'u', 'l', 'l']
  | _, .bool true => ['t', 'r', 'u', 'e']
  | _, .bool false => ['f', 'a', 'l', 's', 'e']
  | _, .int n => intChars n
  | _, .str s => strLit s
  | _, .arr [] => ['[', ']']
  | l, .arr (x :: xs) =>
    '[' :: '\n' :: (indentChars (l + 1) ++ dumpVal (l + 1) x ++ dumpArrRest (l + 1) xs
      ++ '\n' :: (indentChars l ++ [']']))
  | _, .obj [] => ['{', '}']
  | l, .obj ((k, v) :: kvs) =>
    '{' :: '\n' :: (indentChars (l + 1) ++ strLit k ++ ':' :: ' ' :: dumpVal (l + 1) v
      ++ dumpObjRest (l + 1) kvs ++ '\n' :: (indentChars l ++ ['}']))

/-- Second and later array items, each preceded by `",\n" ++ indent`. -/
def dumpArrRest : Nat → List Json → List Char
  | _, [] => []
  | l, x :: xs => ',' :: '\n' :: (indentChars l ++ dumpVal l x ++ dumpArrRest l xs)

/-- Second and later object entries. -/
def dumpObjRest : Nat → List (String × Json) → List Char
  | _, [] => []
  | l, (k, v) :: kvs =>
    ',' :: '\n' :: (indentChars l ++ strLit k ++ ':' :: ' ' :: dumpVal l v ++ dumpObjRest l kvs)

end

/-- The exact text `save_json` writes for a document. -/
def dumps (v : Json) : String := ⟨dumpVal 0 v⟩

/-- Result of `save_json`: the returned path and the file content. -/
structure JsonSaveResult where
  path : RelPath
  content : String

/-- `NewsDataExporter.save_json`: resolve the filename and write the raw
response with `json.dump(data, f, ensure_ascii=False, indent=2)`. -/
def NewsDataExporter.save_json (e : NewsDataExporter) (data : Json)
    (filename : Option String) : JsonSaveResult :=
  ⟨⟨e.output_dir, e.getFilename filename "json"⟩, dumps data⟩

/-! ## JSON parsing (the Data Loader) -/

/-- JSON whitespace (`json.decoder` skips space, tab, newline, carriage
return between tokens). -/
def isWsChar (c : Char) : Bool := c = ' ' || c = '\t' || c = '\n' || c = '\r'

/-- Drop leading whitespace. -/
def skipWs : List Char → List Char
  | [] => []
  | c :: cs => if isWsChar c then skipWs cs else c :: cs

/-- ASCII decimal digit test. -/
def isDigitChar (c : Char) : Bool := 48 ≤ c.toNat && c.toNat ≤ 57

/-- Numeric value of a digit character. -/
def digitVal (c : Char) : Nat := c.toNat - 48

/-- Maximal digit prefix and the remainder. -/
def takeDigits : List Char → List Char × List Char
  | [] => ([], [])
  | c :: cs =>
    if isDigitChar c then
      let r := takeDigits cs
      (c :: r.1, r.2)
    else ([], c :: cs)

/-- Value of a digit string, most significant first. -/
def digitsVal (ds : List Char) : Nat := ds.foldl (fun a c => 10 * a + digitVal c) 0

/-- Integer literal parser (fraction/exponent forms are outside the integer
fragment this model covers). -/
def parseNum (cs : List Char) : Option (Json × List Char) :=
  match cs with
  | [] => none
  | c :: rest =>
    if c = '-' then
      match takeDigits rest with
      | ([], _) => none
      | (d :: ds, r) => some (.int (-(digitsVal (d :: ds) : Int)), r)
    else
      match takeDigits (c :: rest) with
      | ([], _) => none
      | (d :: ds, r) => some (.int ((digitsVal (d :: ds) : Int)), r)

/-- Value of a hex digit character, either case. -/
def hexVal (c : Char) : Option Nat :=
  if isDigitChar c then some (c.toNat - 48)
  else if 97 ≤ c.toNat && c.toNat ≤ 102 then some (c.toNat - 87)
  else if 65 ≤ c.toNat && c.toNat ≤ 70 then some (c.toNat - 55)
  else none

/-- The character a simple backslash escape denotes. -/
def unescSimple (c : Char) : Option Char :=
  if c = '"' then some '"'
  else if c = '\\' then some '\\'
  else if c = '/' then some '/'
  else if c = 'b' then some (Char.ofNat 8)
  else if c = 'f' then some (Char.ofNat 12)
  else if c = 'n' then some '\n'
  else if c = 'r' then some '\r'
  else if c = 't' then some '\t'
  else none

/-- Parse the body of a string literal after the opening quote, strict mode
(raw control characters rejected, as in `json.loads`); returns the decoded
characters and the remainder after the closing quote. -/
def parseStrBody : List Char → Option (List Char × List Char)
  | [] => none
  | c :: cs =>
    if c = '"' then some ([], cs)
    else if c = '\\' then
      match cs with
      | [] => none
      | e :: cs2 =>
        if e = 'u' then
          match cs2 with
          | h1 :: h2 :: h3 :: h4 :: cs3 =>
            match hexVal h1, hexVal h2, hexVal h3, hexVal h4 with
            | some v1, some v2, some v3, some v4 =>
              match parseStrBody cs3 with
              | some (s, r) =>
                some (Char.ofNat (((v1 * 16 + v2) * 16 + v3) * 16 + v4) :: s, r)
              | none => none
            | _, _, _, _ => none
          | _ => none
        else
          match unescSimple e with
          | some u =>
            match parseStrBody cs2 with
            | some (s, r) => some (u :: s, r)
            | none => none
          | none => none
    else if c.toNat < 32 then none
    else
      match parseStrBody cs with
      | some (s, r) => some (c :: s, r)
      | none => none

mutual

/-- Recursive-descent JSON value parser (fuel-driven so it computes by
kernel reduction; `load_from_text` supplies ample fuel). -/
def parseVal : Nat → List Char → Option (Json × List Char)
  | 0, _ => none
  | f + 1, cs =>
    match cs with
    | [] => none
    | c :: rest =>
      if c = 'n' then
        match rest with
        | 'u' :: 'l' :: 'l' :: r => some (.null, r)
        | _ => none
      else if c = 't' then
        match rest with
        | 'r' :: 'u' :: 'e' :: r => some (.bool true, r)
        | _ => none
      else if c = 'f' then
        match rest with
        | 'a' :: 'l' :: 's' :: 'e' :: r => some (.bool false, r)
        | _ => none
      else if c = '"' then
        match parseStrBody rest with
        | some (s, r) => some (.str ⟨s⟩, r)
        | none => none
      else if c = '[' then
        match skipWs rest with
        | [] => none
        | d :: r =>
          if d = ']' then some (.arr [], r)
          else
            match parseVal f (d :: r) with
            | some (v, r1) =>
              match parseArrTail f (skipWs r1) with
              | some (vs, r2) => some (.arr (v :: vs), r2)
              | none => none
            | none => none
      else if c = '{' then
        match skipWs rest with
        | [] => none
        | d :: r =>
          if d = '}' then some (.obj [], r)
          else
            match parseObjEntry f (d :: r) with
            | some (kv, r1) =>
              match parseObjTail f (skipWs r1) with
              | some (kvs, r2) => some (.obj (kv :: kvs), r2)
              | none => none
            | none => none
      else parseNum (c :: rest)

/-- After an array item: `]` closes, `,` introduces the next item. -/
def parseArrTail : Nat → List Char → Option (List Json × List Char)
  | 0, _ => none
  | f + 1, cs =>
    match cs with
    | [] => none
    | d :: r =>
      if d = ']' then some ([], r)
      else if d = ',' then
        match parseVal f (skipWs r) with
        | some (v, r1) =>
          match parseArrTail f (skipWs r1) with
          | some (vs, r2) => some (v :: vs, r2)
          | none => none
        | none => none
      else none

/-- One `"key": value` entry. -/
def parseObjEntry : Nat → List Char → Option ((String × Json) × List Char)
  | 0, _ => none
  | f + 1, cs =>
    match cs with
    | [] => none
    | d :: r =>
      if d = '"' then
        match parseStrBody r with
        | some (k, r1) =>
          match skipWs r1 with
          | [] => none
          | e :: r2 =>
            if e = ':' then
              match parseVal f (skipWs r2) with
              | some (v, r3) => some ((⟨k⟩, v), r3)
              | none => none
            else none
        | none => none
      else none

/-- After an object entry: `}` closes, `,` introduces the next entry. -/
def parseObjTail : Nat → List Char → Option (List (String × Json) × List Char)
  | 0, _ => none
  | f + 1, cs =>
    match cs with
    | [] => none
    | d :: r =>
      if d = '}' then some ([], r)
      else if d = ',' then
        match parseObjEntry f (skipWs r) with
        | some (kv, r1) =>
          match parseObjTail f (skipWs r1) with
          | some (kvs, r2) => some (kv :: kvs, r2)
          | none => none
        | none => none
      else none

end

/-- Modelled from the spec: the Data Loader operation `load_from_text(s)`
is not in `src/` (only `save_json` and the remote fetch are); per §4.2 it
"parses a string as JSON; fails with `ParseError` if not valid JSON
syntax; returns the Raw Response mapping". `jsonDecodeError` plays the
role of the spec's `ParseError` (it is what `json.loads` raises). -/
def load_from_text (s : String) : Except PyErr Json :=
  match parseVal (s.data.length + 1) (skipWs s.data) with
  | some (v, r) => if skipWs r = [] then .ok v else .error .jsonDecodeError
  | none => .error .jsonDecodeError

mutual

/-- Fuel sufficient for `parseVal` to consume the dump of a value. -/
def jfuel : Json → Nat
  | .null => 1
  | .bool _ => 1
  | .int _ => 1
  | .str _ => 1
  | .arr xs => 1 + jfuelItems xs
  | .obj kvs => 1 + jfuelEntries kvs

/-- Fuel for the items of an array. -/
def jfuelItems : List Json → Nat
  | [] => 1
  | x :: xs => jfuel x + jfuelItems xs + 1

/-- Fuel for the entries of an object. -/
def jfuelEntries : List (String × Json) → Nat
  | [] => 1
  | (_, v) :: kvs => (jfuel v + 1) + jfuelEntries kvs + 1

end

/-- `true` when the list does not start with a decimal digit (so a number
parsed immediately before it stops exactly there). -/
def notDigitStart : List Char → Bool
  | [] => true
  | c :: _ => ! isDigitChar c

/-! ## Supporting lemmas -/

/-- Every constructed client holds a non-empty key. -/
theorem initClient_ok_ne (api env : Option String) (k : String)
    (h : initClient api env = .ok k) : k ≠ "" := by
  unfold initClient at h
  rcases api with _ | s
  · rcases env with _ | t
    · simp at h
    · rcases eq_or_ne t "" with ht | ht
      · simp [ht] at h
      · simp [ht] at h
        subst h
        exact ht
  · rcases eq_or_ne s "" with hs | hs
    · subst hs
      simp only [ne_eq, not_true_eq_false, if_false] at h
      rcases env with _ | t
      · simp at h
      · rcases eq_or_ne t "" with ht | ht
        · simp [ht] at h
        · simp [ht] at h
          subst h
          exact ht
    · simp [hs] at h
      subst h
      exact hs

/-- Any exception escaping one fetch attempt is a `RequestException`. -/
theorem oneAttempt_error_requestException (a : Attempt) (e : PyErr)
    (h : oneAttempt a = .error e) : isRequestException e = true := by
  cases a with
  | transportErr =>
    simp [oneAttempt] at h
    subst h
    rfl
  | response st body =>
    simp only [oneAttempt] at h
    by_cases hs : 400 ≤ st ∧ st < 600
    · rw [if_pos hs] at h
      injection h with h
      subst h
      rfl
    · rw [if_neg hs] at h
      cases body with
      | valid j => simp at h
      | invalid =>
        injection h with h
        subst h
        rfl

/-- A found marker splits the input: the text decomposes as
`pre ++ "[+" ++ post` with a marker-free `pre`. -/
theorem findMarker_split (cs : List Char) :
    ∀ p q, findMarker cs = some (p, q) →
      cs = p ++ '[' :: '+' :: q ∧ findMarker p = none := by
  induction cs with
  | nil => intro p q h; simp [findMarker] at h
  | cons c cs ih =>
    intro p q h
    unfold findMarker at h
    by_cases hc : c = '[' ∧ cs.head? = some '+'
    · rw [if_pos hc] at h
      injection h with h
      rw [Prod.mk.injEq] at h
      obtain ⟨hpl, hq⟩ := h
      subst hpl
      obtain ⟨hcl, hd⟩ := hc
      subst hcl
      rcases cs with _ | ⟨d, cs'⟩
      · simp at hd
      · simp at hd
        subst hd
        subst hq
        exact ⟨rfl, rfl⟩
    · rw [if_neg hc] at h
      cases hf : findMarker cs with
      | none => rw [hf] at h; exact absurd h (by simp)
      | some pq =>
        rw [hf] at h
        obtain ⟨p', q'⟩ := pq
        injection h with h
        rw [Prod.mk.injEq] at h
        obtain ⟨hp, hq⟩ := h
        subst hp
        subst hq
        obtain ⟨hcs, hpnone⟩ := ih p' q' hf
        refine ⟨by rw [hcs]; simp, ?_⟩
        unfold findMarker
        rw [if_neg, hpnone]
        rintro ⟨hcl, hph⟩
        apply hc
        refine ⟨hcl, ?_⟩
        rcases p' with _ | ⟨d, p''⟩
        · simp at hph
        · simp at hph
          subst hph
          rw [hcs]
          rfl

/-! ## Claim theorems -/

/-- C1 (counterexample): on an empty article list `save_csv` creates no
file at all — contrary to the claim that a header-only file exists after
the call — though it does warn and return the resolved path. -/
theorem c1_empty_csv_counterexample :
    (exSample.save_csv [] none).file = none
    ∧ (exSample.save_csv [] none).warned = true
    ∧ (exSample.save_csv [] none).path =
        ⟨"out", "news_data_20250101_120000.csv"⟩ :=
  ⟨rfl, rfl, rfl⟩

/-- C1 (amended): for an empty article list `save_csv` logs the warning
and returns the resolved path, but skips the write entirely: no file is
created and no header row is written. -/
theorem c1_empty_csv_skips_file (e : NewsDataExporter) (fn : Option String) :
    e.save_csv [] fn =
      ⟨⟨e.output_dir, e.getFilename fn "csv"⟩, none, true⟩ := rfl

/-- C3: with no API key passed and none in the environment, the
remote-fetch path fails with the `ValueError` that `main` handles as the
configuration error, and issues zero HTTP calls. -/
theorem c3_missing_key_config_error_no_calls (net : Nat → Attempt) :
    remoteFetch none none net = (.error .valueError, 0)
    ∧ errCategory .valueError = .configError :=
  ⟨rfl, rfl⟩

/-- C10: an empty-string API key, passed explicitly or read from the
environment, is treated exactly like a missing key — the constructor
raises — and every successfully constructed client holds a non-empty
key, so no fetch can run with an empty credential. -/
theorem c10_empty_key_like_missing (api env : Option String) (k : String) :
    initClient (some "") env = initClient none env
    ∧ initClient none (some "") = .error .valueError
    ∧ initClient (some "") (some "") = .error .valueError
    ∧ (initClient api env = .ok k → k ≠ "") :=
  ⟨rfl, rfl, rfl, initClient_ok_ne api env k⟩

/-- C10 witness: a concrete successful construction, whose key is
therefore non-empty. -/
theorem c10_empty_key_like_missing_witness : ("key" : String) ≠ "" :=
  (c10_empty_key_like_missing (some "key") none "key").2.2.2 rfl

/-- C5: when the raw mapping has no `source` key, `from_dict` succeeds
(no fault), with `source_name` the empty string and `source_id` absent
(Python `None`). -/
theorem c5_missing_source (data : List (String × Json))
    (h : data.find? (fun p => p.1 = "source") = none) :
    ∃ a, Article.from_dict data = .ok a
      ∧ a.source = .str "" ∧ a.source_id = .null := by
  refine ⟨⟨dictGetD data "title" (Json.str ""), .str "", .null,
    dictGet data "author", dictGet data "description",
    dictGetD data "url" (Json.str ""), dictGet data "urlToImage",
    dictGetD data "publishedAt" (Json.str ""), dictGet data "content"⟩,
    ?_, rfl, rfl⟩
  unfold Article.from_dict dictGetD
  rw [h]
  rfl

/-- C5 witness: the empty raw mapping. -/
theorem c5_missing_source_witness :
    ∃ a, Article.from_dict [] = .ok a
      ∧ a.source = .str "" ∧ a.source_id = .null :=
  c5_missing_source [] rfl

/-- C4 (counterexample): a raw mapping whose `title` key is present with
value `null` yields an article whose `title` is `null` — not a string —
so "title is never null downstream" fails as a universal statement. -/
theorem c4_null_title_counterexample :
    Article.from_dict [("title", Json.null)] =
      .ok ⟨Json.null, .str "", .null, .null, .null, .str "", .null, .str "", .null⟩
    ∧ Json.null ≠ Json.str "" :=
  ⟨rfl, fun h => Json.noConfusion h⟩

/-- C4 (amended): for any raw mapping on which `from_dict` succeeds,
`title` equals the stored raw value whenever the key is present — even a
stored `null` is passed through — and defaults to the empty string when
the key is absent; likewise for `url`. Absence, not presence-with-null,
is what collapses to `""`. -/
theorem c4_title_url_defaults (data : List (String × Json)) (a : Article)
    (h : Article.from_dict data = .ok a) :
    (∀ v, data.find? (fun p => p.1 = "title") = some v → a.title = v.2)
    ∧ (data.find? (fun p => p.1 = "title") = none → a.title = .str "")
    ∧ (∀ v, data.find? (fun p => p.1 = "url") = some v → a.url = v.2)
    ∧ (data.find? (fun p => p.1 = "url") = none → a.url = .str "") := by
  have hfields : a.title = dictGetD data "title" (Json.str "")
      ∧ a.url = dictGetD data "url" (Json.str "") := by
    simp only [Article.from_dict, Bind.bind, Except.bind] at h
    cases hsv : jsonGetD (dictGetD data "source" (Json.obj [])) "name" (Json.str "") with
    | error e => rw [hsv] at h; simp at h
    | ok sn =>
      rw [hsv] at h
      cases hsi : jsonGetD (dictGetD data "source" (Json.obj [])) "id" Json.null with
      | error e => rw [hsi] at h; simp at h
      | ok si =>
        rw [hsi] at h
        simp only [pure, Except.pure] at h
        injection h with h
        subst h
        exact ⟨rfl, rfl⟩
  obtain ⟨ht, hu⟩ := hfields
  refine ⟨?_, ?_, ?_, ?_⟩
  · intro v hv; rw [ht]; unfold dictGetD; rw [hv]
  · intro hv; rw [ht]; unfold dictGetD; rw [hv]
  · intro v hv; rw [hu]; unfold dictGetD; rw [hv]
  · intro hv; rw [hu]; unfold dictGetD; rw [hv]

/-- C4 witness: a present `title` is copied verbatim and an absent `url`
defaults to the empty string. -/
theorem c4_title_url_defaults_witness :
    (⟨.str "T", .str "", .null, .null, .null, .str "", .null, .str "", .null⟩ : Article).title
      = .str "T"
    ∧ (⟨.str "T", .str "", .null, .null, .null, .str "", .null, .str "", .null⟩ : Article).url
      = .str "" :=
  ⟨(c4_title_url_defaults [("title", .str "T")] _ rfl).1 ("title", .str "T") rfl,
   (c4_title_url_defaults [("title", .str "T")] _ rfl).2.2.2 rfl⟩

/-- C6: for any non-empty article list, the written CSV is exactly one
header row with the nine fixed column names in order, followed by one
data row per article (row count = article count + 1), and every absent
optional field (Python `None`) is rendered as the empty string, never as
a null marker. -/
theorem c6_csv_rows (e : NewsDataExporter) (arts : List Article)
    (fn : Option String) (h : arts ≠ []) :
    (e.save_csv arts fn).file = some (csvHeader :: arts.map Article.csvRow)
    ∧ (csvHeader :: arts.map Article.csvRow).length = arts.length + 1
    ∧ csvHeader = [.str "title", .str "source", .str "source_id", .str "author",
        .str "description", .str "url", .str "url_to_image", .str "publishedAt",
        .str "content"]
    ∧ csvHeader.length = 9
    ∧ ∀ a ∈ arts,
        (Article.csvRow a).length = 9
        ∧ (a.source_id = Json.null → (Article.csvRow a).get? 2 = some (.str ""))
        ∧ (a.author = Json.null → (Article.csvRow a).get? 3 = some (.str ""))
        ∧ (a.description = Json.null → (Article.csvRow a).get? 4 = some (.str ""))
        ∧ (a.url_to_image = Json.null → (Article.csvRow a).get? 6 = some (.str ""))
        ∧ (a.content = Json.null → (Article.csvRow a).get? 8 = some (.str "")) := by
  refine ⟨?_, by simp, rfl, rfl, ?_⟩
  · have hne : arts.isEmpty = false := by
      cases arts with
      | nil => exact absurd rfl h
      | cons x xs => rfl
    simp [NewsDataExporter.save_csv, hne]
  · intro a _
    refine ⟨rfl, ?_, ?_, ?_, ?_, ?_⟩ <;>
      · intro hnull
        simp [Article.csvRow, hnull, pyOr, pyTruthy]

/-- C6 witness: a singleton list whose article has every optional field
absent. -/
theorem c6_csv_rows_witness :
    (exSample.save_csv [artSample] none).file
      = some (csvHeader :: [artSample].map Article.csvRow)
    ∧ (Article.csvRow artSample).get? 3 = some (.str "") :=
  ⟨(c6_csv_rows exSample [artSample] none (List.cons_ne_nil _ _)).1,
   ((c6_csv_rows exSample [artSample] none (List.cons_ne_nil _ _)).2.2.2.2 artSample
      (List.mem_singleton.mpr rfl)).2.2.1 rfl⟩

/-- C7 (counterexample): an explicitly supplied empty-string filename has
no extension, yet it does not get `.json` appended — `if base_name:` is
false for `""`, so the timestamped default name is produced instead. -/
theorem c7_empty_filename_counterexample :
    pySuffix "" = ""
    ∧ exSample.getFilename (some "") "json" = "news_data_20250101_120000.json"
    ∧ exSample.getFilename (some "") "json" ≠ "" ++ "." ++ "json" :=
  ⟨rfl, rfl, by decide⟩

/-- C7 (amended): within one run (one exporter) the default JSON and CSV
filenames are built from the same stored timestamp; a non-empty explicit
filename without an extension gets the proper extension appended; a
filename that already has any extension is left unmodified. -/
theorem c7_filename_policy (e : NewsDataExporter) (data : Json)
    (arts : List Article) (b ext : String) (hb : b ≠ "") :
    (e.save_json data none).path.name = "news_data_" ++ e.timestamp ++ ".json"
    ∧ (e.save_csv arts none).path.name = "news_data_" ++ e.timestamp ++ ".csv"
    ∧ (pySuffix b = "" → e.getFilename (some b) ext = b ++ "." ++ ext)
    ∧ (pySuffix b ≠ "" → e.getFilename (some b) ext = b) := by
  refine ⟨?_, ?_, ?_, ?_⟩
  · show _ ++ "." ++ _ = _
    rw [String.append_assoc]
    rfl
  · cases harts : arts.isEmpty <;>
      simp only [NewsDataExporter.save_csv, harts, NewsDataExporter.getFilename,
        Bool.false_eq_true, if_false, if_true] <;>
      · show _ ++ "." ++ _ = _
        rw [String.append_assoc]
        rfl
  · intro hsuf
    simp [NewsDataExporter.getFilename, hb, hsuf]
  · intro hsuf
    simp [NewsDataExporter.getFilename, hb, hsuf]

/-- C7 witness: `report` gains `.csv`; `report.txt` stays as supplied. -/
theorem c7_filename_policy_witness :
    exSample.getFilename (some "report") "csv" = "report" ++ "." ++ "csv"
    ∧ exSample.getFilename (some "report.txt") "csv" = "report.txt" :=
  ⟨(c7_filename_policy exSample .null [] "report" "csv" (by decide)).2.2.1 rfl,
   (c7_filename_policy exSample .null [] "report.txt" "csv" (by decide)).2.2.2
     (by decide)⟩

/-- C9 (counterexample): for the spec's own example content, the default
rendering is the "Content Preview" line with the pre-marker text only —
it carries no note that full content is available via a flag (no mention
of "flag", "full-content", or "-f" anywhere in the line). -/
theorem c9_preview_no_flag_note_counterexample :
    contentPreviewLine "Full text here...[+1500 chars]"
      = "   [yellow]Content Preview:[/yellow] Full text here..."
    ∧ strOccursIn "flag" (contentPreviewLine "Full text here...[+1500 chars]") = false
    ∧ strOccursIn "full-content" (contentPreviewLine "Full text here...[+1500 chars]") = false
    ∧ strOccursIn "-f" (contentPreviewLine "Full text here...[+1500 chars]") = false :=
  ⟨rfl, by decide, by decide, by decide⟩

/-- C9 (amended): when the content contains the truncation marker `"[+"`,
the default rendering shows exactly the text preceding the first marker
(the preview itself is marker-free and the original content is the
preview followed by `"[+"` and the remainder), labelled as a content
preview but with no note about the flag; the full-content rendering shows
the entire original string, marker included. -/
theorem c9_content_preview_rule (content : String)
    (h : hasMarker content = true) :
    (∃ rest, content.data = (previewOf content).data ++ '[' :: '+' :: rest
      ∧ hasMarker (previewOf content) = false)
    ∧ contentPreviewLine content
        = "   [yellow]Content Preview:[/yellow] " ++ previewOf content
    ∧ fullContentLine content = "[yellow]Content:[/yellow] " ++ content := by
  refine ⟨?_, rfl, rfl⟩
  unfold hasMarker at h
  cases hf : findMarker content.data with
  | none => rw [hf] at h; simp at h
  | some pq =>
    obtain ⟨p, q⟩ := pq
    obtain ⟨hsplit, hnone⟩ := findMarker_split content.data p q hf
    refine ⟨q, ?_, ?_⟩
    · have hprev : previewOf content = ⟨p⟩ := by
        unfold previewOf splitMarkerHead hasMarker
        rw [hf]
        simp
      rw [hprev]
      exact hsplit
    · have hprev : previewOf content = ⟨p⟩ := by
        unfold previewOf splitMarkerHead hasMarker
        rw [hf]
        simp
      rw [hprev]
      unfold hasMarker
      simp [hnone]

/-- C9 witness: the spec's example content. -/
theorem c9_content_preview_rule_witness :
    ∃ rest, ("Full text here...[+1500 chars]" : String).data
        = (previewOf "Full text here...[+1500 chars]").data ++ '[' :: '+' :: rest
      ∧ hasMarker (previewOf "Full text here...[+1500 chars]") = false :=
  (c9_content_preview_rule "Full text here...[+1500 chars]" (by decide)).1

/-- C2 (counterexample): a 200 response with a malformed JSON body IS
retried — `JSONDecodeError` is a `RequestException` subclass, which the
`backoff` decorator catches. After exhausting the three attempts the
escaping `JSONDecodeError` is also a `ValueError` (through
`json.JSONDecodeError`), so `main`'s first handler, `except ValueError`,
catches it and logs the plain message — it is not surfaced as a distinct
parse-error kind. With a malformed first body and a valid second one,
two HTTP calls are made and the second result is returned. -/
theorem c2_invalid_json_retried_counterexample :
    runRetry netInvalidThenOk 0 3 = (.ok (Json.obj []), 2)
    ∧ runRetry netAlwaysInvalid 0 3 = (.error .jsonDecodeError, 3)
    ∧ isRequestException .jsonDecodeError = true
    ∧ isValueError .jsonDecodeError = true
    ∧ errCategory .jsonDecodeError = .configError :=
  ⟨rfl, rfl, rfl, rfl, rfl⟩

/-- C2 (amended): the fetch makes between 1 and 3 HTTP calls; every call
that is followed by another one failed with a `RequestException`
(transport failure, 4XX/5XX status, or JSON-decode failure — the three
are retried alike); any first-call exception triggers a retry; and a
malformed body after a 200 status raises `JSONDecodeError`, which the
`backoff` decorator retries as a `RequestException` and which, being a
`ValueError` as well, is finally caught by `main`'s `except ValueError`
clause rather than the network-error clause. -/
theorem c2_retry_policy (net : Nat → Attempt) :
    1 ≤ (runRetry net 0 3).2
    ∧ (runRetry net 0 3).2 ≤ 3
    ∧ (∀ i, i + 1 < (runRetry net 0 3).2 →
        ∃ e, oneAttempt (net i) = .error e ∧ isRequestException e = true)
    ∧ (∀ e, oneAttempt (net 0) = .error e → 2 ≤ (runRetry net 0 3).2)
    ∧ oneAttempt (.response 200 .invalid) = .error .jsonDecodeError
    ∧ isRequestException .jsonDecodeError = true
    ∧ isValueError .jsonDecodeError = true
    ∧ errCategory .jsonDecodeError = .configError := by
  cases h0 : oneAttempt (net 0) with
  | ok j0 =>
    have hr : runRetry net 0 3 = (.ok j0, 1) := by simp [runRetry, h0]
    refine ⟨by simp [hr], by simp [hr], ?_, ?_, rfl, rfl, rfl, rfl⟩
    · intro i hi
      rw [hr] at hi
      exact absurd hi (by omega)
    · intro e he
      exact absurd he (by simp)
  | error e0 =>
    have hre0 := oneAttempt_error_requestException _ _ h0
    cases h1 : oneAttempt (net 1) with
    | ok j1 =>
      have hr : runRetry net 0 3 = (.ok j1, 2) := by
        simp [runRetry, h0, hre0, h1]
      refine ⟨by simp [hr], by simp [hr], ?_, ?_, rfl, rfl, rfl, rfl⟩
      · intro i hi
        rw [hr] at hi
        have : i = 0 := by omega
        subst this
        exact ⟨e0, h0, hre0⟩
      · intro e _
        simp [hr]
    | error e1 =>
      have hre1 := oneAttempt_error_requestException _ _ h1
      have hr : runRetry net 0 3 = (oneAttempt (net 2), 3) := by
        simp [runRetry, h0, hre0, h1, hre1]
      refine ⟨by simp [hr], by simp [hr], ?_, ?_, rfl, rfl, rfl, rfl⟩
      · intro i hi
        rw [hr] at hi
        rcases i with _ | _ | i
        · exact ⟨e0, h0, hre0⟩
        · exact ⟨e1, h1, hre1⟩
        · exact absurd hi (by omega)
      · intro e _
        simp [hr]

/-- C2 witness: with every call yielding a malformed 200 body, a call is
followed by another (the failure is a `RequestException`), and any
first-call error forces at least two calls. -/
theorem c2_retry_policy_witness :
    (∃ e, oneAttempt (netAlwaysInvalid 0) = .error e ∧ isRequestException e = true)
    ∧ 2 ≤ (runRetry netAlwaysInvalid 0 3).2 :=
  ⟨(c2_retry_policy netAlwaysInvalid).2.2.1 0 (by decide),
   (c2_retry_policy netAlwaysInvalid).2.2.2.1 .jsonDecodeError rfl⟩

/-! ## Round-trip lemmas: digits -/

/-- `digitChar` of a digit value evaluates back to it. -/
theorem digitVal_digitChar (n : Nat) (h : n < 10) :
    digitVal (digitChar n) = n := by
  interval_cases n <;> rfl

/-- `digitChar` of a digit value is a digit character. -/
theorem isDigitChar_digitChar (n : Nat) (h : n < 10) :
    isDigitChar (digitChar n) = true := by
  interval_cases n <;> rfl

/-- Appending one digit multiplies the accumulated value by ten. -/
theorem digitsVal_append_digit (ds : List Char) (c : Char) :
    digitsVal (ds ++ [c]) = 10 * digitsVal ds + digitVal c := by
  simp [digitsVal, List.foldl_append]

/-- With sufficient fuel, `natCharsAux` produces a non-empty all-digit
string whose value is the input. -/
theorem natCharsAux_spec (f : Nat) :
    ∀ n, n < f →
      natCharsAux f n ≠ []
      ∧ (∀ c ∈ natCharsAux f n, isDigitChar c = true)
      ∧ digitsVal (natCharsAux f n) = n := by
  induction f with
  | zero => intro n hn; omega
  | succ f ih =>
    intro n hn
    by_cases h10 : n < 10
    · refine ⟨by simp [natCharsAux, h10], ?_, ?_⟩
      · intro c hc
        simp [natCharsAux, h10] at hc
        subst hc
        exact isDigitChar_digitChar n h10
      · simp [natCharsAux, h10, digitsVal, digitVal_digitChar n h10]
    · have hdiv : n / 10 < f := by
        have := Nat.div_lt_self (by omega : 0 < n) (by omega : 1 < 10)
        omega
      obtain ⟨hne, hdig, hval⟩ := ih (n / 10) hdiv
      have hu : natCharsAux (f + 1) n
          = natCharsAux f (n / 10) ++ [digitChar (n % 10)] := by
        simp [natCharsAux, h10]
      refine ⟨by simp [hu], ?_, ?_⟩
      · intro c hc
        rw [hu] at hc
        rcases List.mem_append.mp hc with hc | hc
        · exact hdig c hc
        · simp at hc
          subst hc
          exact isDigitChar_digitChar _ (Nat.mod_lt _ (by omega))
      · rw [hu, digitsVal_append_digit, hval,
          digitVal_digitChar _ (Nat.mod_lt _ (by omega))]
        omega

/-- `natChars` is non-empty. -/
theorem natChars_ne_nil (n : Nat) : natChars n ≠ [] :=
  (natCharsAux_spec (n + 1) n (by omega)).1

/-- `natChars` consists of digit characters. -/
theorem natChars_digits (n : Nat) :
    ∀ c ∈ natChars n, isDigitChar c = true :=
  (natCharsAux_spec (n + 1) n (by omega)).2.1

/-- Reading the decimal representation back gives the value. -/
theorem digitsVal_natChars (n : Nat) : digitsVal (natChars n) = n :=
  (natCharsAux_spec (n + 1) n (by omega)).2.2

/-- The maximal digit run over `digits ++ rest` is exactly the digits,
when `rest` does not begin with a digit. -/
theorem takeDigits_append (ds rest : List Char)
    (hds : ∀ c ∈ ds, isDigitChar c = true)
    (hrest : notDigitStart rest = true) :
    takeDigits (ds ++ rest) = (ds, rest) := by
  induction ds with
  | nil =>
    cases rest with
    | nil => rfl
    | cons r rs =>
      have : isDigitChar r = false := by
        simpa [notDigitStart] using hrest
      simp [takeDigits, this]
  | cons d ds ih =>
    have hd : isDigitChar d = true := hds d (by simp)
    have := ih (fun c hc => hds c (by simp [hc]))
    simp [takeDigits, hd, this]

/-- A digit character is none of the characters the tokenizer treats
specially. -/
theorem digit_not_special (c : Char) (h : isDigitChar c = true) :
    isWsChar c = false ∧ c ≠ ']' ∧ c ≠ '}' ∧ c ≠ ',' ∧ c ≠ '-'
    ∧ c ≠ 'n' ∧ c ≠ 't' ∧ c ≠ 'f' ∧ c ≠ '"' ∧ c ≠ '[' ∧ c ≠ '{' := by
  refine ⟨?_, ?_, ?_, ?_, ?_, ?_, ?_, ?_, ?_, ?_, ?_⟩
  · cases hw : isWsChar c
    · rfl
    · simp only [isWsChar, Bool.or_eq_true, decide_eq_true_eq] at hw
      rcases hw with ((hw | hw) | hw) | hw <;> subst hw <;>
        exact absurd h (by decide)
  all_goals intro heq; subst heq; exact absurd h (by decide)

/-- Parsing the printed integer consumes exactly its digits. -/
theorem parseNum_intChars (n : Int) (rest : List Char)
    (hrest : notDigitStart rest = true) :
    parseNum (intChars n ++ rest) = some (.int n, rest) := by
  cases n with
  | ofNat m =>
    obtain ⟨c, t, hct⟩ : ∃ c t, natChars m = c :: t := by
      cases hm : natChars m with
      | nil => exact absurd hm (natChars_ne_nil m)
      | cons c t => exact ⟨c, t, rfl⟩
    have hc : isDigitChar c = true := natChars_digits m c (by rw [hct]; simp)
    have hmid : c ≠ '-' := (digit_not_special c hc).2.2.2.2.1
    have htake : takeDigits (natChars m ++ rest) = (natChars m, rest) :=
      takeDigits_append _ _ (natChars_digits m) hrest
    rw [hct] at htake
    show parseNum (natChars m ++ rest) = _
    rw [hct]
    simp only [parseNum, List.cons_append, if_neg hmid]
    rw [show c :: (t ++ rest) = (c :: t) ++ rest from rfl, htake]
    show some (Json.int ((digitsVal (c :: t) : Int)), rest) = _
    rw [← hct, digitsVal_natChars]
    rfl
  | negSucc m =>
    obtain ⟨c, t, hct⟩ : ∃ c t, natChars (m + 1) = c :: t := by
      cases hm : natChars (m + 1) with
      | nil => exact absurd hm (natChars_ne_nil (m + 1))
      | cons c t => exact ⟨c, t, rfl⟩
    have htake : takeDigits (natChars (m + 1) ++ rest) = (natChars (m + 1), rest) :=
      takeDigits_append _ _ (natChars_digits (m + 1)) hrest
    rw [hct] at htake
    show parseNum (('-' :: natChars (m + 1)) ++ rest) = _
    rw [hct]
    simp only [parseNum, List.cons_append, if_pos rfl, if_true]
    rw [show c :: (t ++ rest) = (c :: t) ++ rest from rfl, htake]
    show some (Json.int (-((digitsVal (c :: t) : Int))), rest) = _
    rw [← hct, digitsVal_natChars]
    rfl

/-! ## Round-trip lemmas: whitespace -/

/-- Leading spaces are skipped. -/
theorem skipWs_replicate_space (n : Nat) (cs : List Char) :
    skipWs (List.replicate n ' ' ++ cs) = skipWs cs := by
  induction n with
  | zero => rfl
  | succ n ih => simpa [List.replicate_succ, skipWs] using ih

/-- Indentation is skipped. -/
theorem skipWs_indent (l : Nat) (cs : List Char) :
    skipWs (indentChars l ++ cs) = skipWs cs :=
  skipWs_replicate_space (2 * l) cs

/-- A leading newline is skipped. -/
theorem skipWs_newline (cs : List Char) : skipWs ('\n' :: cs) = skipWs cs := rfl

/-- A non-whitespace head stops the skipping. -/
theorem skipWs_not_ws (c : Char) (cs : List Char) (h : isWsChar c = false) :
    skipWs (c :: cs) = c :: cs := by
  simp [skipWs, h]

theorem hexVal_hexDigitChar (n : Nat) (h : n < 16) :
    hexVal (hexDigitChar n) = some n := by
  interval_cases n <;> rfl

theorem parseStrBody_quote (R : List Char) :
    parseStrBody ('"' :: R) = some ([], R) := by
  rw [parseStrBody.eq_def]
  simp

theorem parseStrBody_esc_simple (e u : Char) (R : List Char)
    (he : e ≠ 'u') (hu : unescSimple e = some u) :
    parseStrBody ('\\' :: e :: R) =
      match parseStrBody R with
      | some (s, r) => some (u :: s, r)
      | none => none := by
  rw [parseStrBody.eq_def]
  simp [he, hu]

theorem parseStrBody_esc_u (h1 h2 h3 h4 : Char) (v1 v2 v3 v4 : Nat)
    (R : List Char) (hv1 : hexVal h1 = some v1) (hv2 : hexVal h2 = some v2)
    (hv3 : hexVal h3 = some v3) (hv4 : hexVal h4 = some v4) :
    parseStrBody ('\\' :: 'u' :: h1 :: h2 :: h3 :: h4 :: R) =
      match parseStrBody R with
      | some (s, r) => some (Char.ofNat (((v1 * 16 + v2) * 16 + v3) * 16 + v4) :: s, r)
      | none => none := by
  rw [parseStrBody.eq_def]
  simp [hv1, hv2, hv3, hv4]

theorem parseStrBody_plain (c : Char) (R : List Char)
    (h1 : ¬ c = '"') (h2 : ¬ c = '\\') (h3 : ¬ c.toNat < 32) :
    parseStrBody (c :: R) =
      match parseStrBody R with
      | some (s, r) => some (c :: s, r)
      | none => none := by
  rw [parseStrBody.eq_def]
  simp [h1, h2, h3]

theorem parseStrBody_escape (cs rest : List Char) :
    parseStrBody (escapeChars cs ++ '"' :: rest) = some (cs, rest) := by
  induction cs with
  | nil => exact parseStrBody_quote rest
  | cons c cs ih =>
    show parseStrBody ((escChar c ++ escapeChars cs) ++ '"' :: rest) = _
    rw [List.append_assoc]
    by_cases hq : c = '"'
    · subst hq
      rw [show escChar '"' = ['\\', '"'] from rfl]
      rw [List.cons_append, List.cons_append, List.nil_append,
        parseStrBody_esc_simple '"' '"' _ (by decide) rfl, ih]
    by_cases hb : c = '\\'
    · subst hb
      rw [show escChar '\\' = ['\\', '\\'] from rfl]
      rw [List.cons_append, List.cons_append, List.nil_append,
        parseStrBody_esc_simple '\\' '\\' _ (by decide) rfl, ih]
    by_cases hn : c = '\n'
    · subst hn
      rw [show escChar '\n' = ['\\', 'n'] from rfl]
      rw [List.cons_append, List.cons_append, List.nil_append,
        parseStrBody_esc_simple 'n' '\n' _ (by decide) rfl, ih]
    by_cases ht : c = '\t'
    · subst ht
      rw [show escChar '\t' = ['\\', 't'] from rfl]
      rw [List.cons_append, List.cons_append, List.nil_append,
        parseStrBody_esc_simple 't' '\t' _ (by decide) rfl, ih]
    by_cases hr : c = '\r'
    · subst hr
      rw [show escChar '\r' = ['\\', 'r'] from rfl]
      rw [List.cons_append, List.cons_append, List.nil_append,
        parseStrBody_esc_simple 'r' '\r' _ (by decide) rfl, ih]
    by_cases h8 : c.toNat = 8
    · have hc : c = Char.ofNat 8 := by rw [← Char.ofNat_toNat c, h8]
      subst hc
      rw [show escChar (Char.ofNat 8) = ['\\', 'b'] from rfl]
      rw [List.cons_append, List.cons_append, List.nil_append,
        parseStrBody_esc_simple 'b' (Char.ofNat 8) _ (by decide) rfl, ih]
    by_cases h12 : c.toNat = 12
    · have hc : c = Char.ofNat 12 := by rw [← Char.ofNat_toNat c, h12]
      subst hc
      rw [show escChar (Char.ofNat 12) = ['\\', 'f'] from rfl]
      rw [List.cons_append, List.cons_append, List.nil_append,
        parseStrBody_esc_simple 'f' (Char.ofNat 12) _ (by decide) rfl, ih]
    by_cases h32 : c.toNat < 32
    · have h16a : c.toNat / 16 < 16 := by omega
      have h16b : c.toNat % 16 < 16 := by omega
      have hesc : escChar c = ['\\', 'u', '0', '0',
          hexDigitChar (c.toNat / 16), hexDigitChar (c.toNat % 16)] := by
        unfold escChar
        rw [if_neg hq, if_neg hb, if_neg hn, if_neg ht, if_neg hr,
          if_neg h8, if_neg h12, if_pos h32]
      rw [hesc]
      simp only [List.cons_append, List.nil_append]
      rw [parseStrBody_esc_u '0' '0' _ _ 0 0 (c.toNat / 16) (c.toNat % 16) _
        rfl rfl (hexVal_hexDigitChar _ h16a) (hexVal_hexDigitChar _ h16b), ih]
      rw [show ((0 * 16 + 0) * 16 + c.toNat / 16) * 16 + c.toNat % 16 = c.toNat from by omega,
        Char.ofNat_toNat]
    · have hesc : escChar c = [c] := by
        unfold escChar
        rw [if_neg hq, if_neg hb, if_neg hn, if_neg ht, if_neg hr,
          if_neg h8, if_neg h12, if_neg h32]
      rw [hesc]
      simp only [List.cons_append, List.nil_append]
      rw [parseStrBody_plain c _ hq hb h32, ih]

theorem parseVal_null (f : Nat) (R : List Char) :
    parseVal (f + 1) ('n' :: 'u' :: 'l' :: 'l' :: R) = some (.null, R) := by
  rw [parseVal.eq_def]
  simp

theorem parseVal_true (f : Nat) (R : List Char) :
    parseVal (f + 1) ('t' :: 'r' :: 'u' :: 'e' :: R) = some (.bool true, R) := by
  rw [parseVal.eq_def]
  simp

theorem parseVal_false (f : Nat) (R : List Char) :
    parseVal (f + 1) ('f' :: 'a' :: 'l' :: 's' :: 'e' :: R) = some (.bool false, R) := by
  rw [parseVal.eq_def]
  simp

theorem parseVal_str (f : Nat) (R : List Char) :
    parseVal (f + 1) ('"' :: R) =
      match parseStrBody R with
      | some (s, r) => some (.str ⟨s⟩, r)
      | none => none := by
  rw [parseVal.eq_def]
  simp

theorem parseVal_arr_close (f : Nat) (R r : List Char)
    (hskip : skipWs R = ']' :: r) :
    parseVal (f + 1) ('[' :: R) = some (.arr [], r) := by
  rw [parseVal.eq_def]
  simp [hskip]

theorem parseVal_arr (f : Nat) (R r : List Char) (d : Char)
    (hskip : skipWs R = d :: r) (hd : ¬ d = ']') :
    parseVal (f + 1) ('[' :: R) =
      match parseVal f (d :: r) with
      | some (v, r1) =>
        match parseArrTail f (skipWs r1) with
        | some (vs, r2) => some (.arr (v :: vs), r2)
        | none => none
      | none => none := by
  rw [parseVal.eq_def]
  simp [hskip, hd]

theorem parseVal_obj_close (f : Nat) (R r : List Char)
    (hskip : skipWs R = '}' :: r) :
    parseVal (f + 1) ('{' :: R) = some (.obj [], r) := by
  rw [parseVal.eq_def]
  simp [hskip]

theorem parseVal_obj (f : Nat) (R r : List Char) (d : Char)
    (hskip : skipWs R = d :: r) (hd : ¬ d = '}') :
    parseVal (f + 1) ('{' :: R) =
      match parseObjEntry f (d :: r) with
      | some (kv, r1) =>
        match parseObjTail f (skipWs r1) with
        | some (kvs, r2) => some (.obj (kv :: kvs), r2)
        | none => none
      | none => none := by
  rw [parseVal.eq_def]
  simp [hskip, hd]

theorem parseVal_num_head (f : Nat) (c : Char) (R : List Char)
    (hn : ¬ c = 'n') (ht : ¬ c = 't') (hf : ¬ c = 'f') (hq : ¬ c = '"')
    (ha : ¬ c = '[') (ho : ¬ c = '{') :
    parseVal (f + 1) (c :: R) = parseNum (c :: R) := by
  rw [parseVal.eq_def]
  simp [hn, ht, hf, hq, ha, ho]

theorem parseArrTail_close (f : Nat) (r : List Char) :
    parseArrTail (f + 1) (']' :: r) = some ([], r) := by
  rw [parseArrTail.eq_def]
  simp

theorem parseArrTail_comma (f : Nat) (r : List Char) :
    parseArrTail (f + 1) (',' :: r) =
      match parseVal f (skipWs r) with
      | some (v, r1) =>
        match parseArrTail f (skipWs r1) with
        | some (vs, r2) => some (v :: vs, r2)
        | none => none
      | none => none := by
  rw [parseArrTail.eq_def]
  simp

theorem parseObjTail_close (f : Nat) (r : List Char) :
    parseObjTail (f + 1) ('}' :: r) = some ([], r) := by
  rw [parseObjTail.eq_def]
  simp

theorem parseObjTail_comma (f : Nat) (r : List Char) :
    parseObjTail (f + 1) (',' :: r) =
      match parseObjEntry f (skipWs r) with
      | some (kv, r1) =>
        match parseObjTail f (skipWs r1) with
        | some (kvs, r2) => some (kv :: kvs, r2)
        | none => none
      | none => none := by
  rw [parseObjTail.eq_def]
  simp

theorem parseObjEntry_quote (f : Nat) (r : List Char) :
    parseObjEntry (f + 1) ('"' :: r) =
      match parseStrBody r with
      | some (k, r1) =>
        match skipWs r1 with
        | [] => none
        | e :: r2 =>
          if e = ':' then
            match parseVal f (skipWs r2) with
            | some (v, r3) => some ((⟨k⟩, v), r3)
            | none => none
          else none
      | none => none := by
  rw [parseObjEntry.eq_def]
  simp

/-- A leading plain space is skipped. -/
theorem skipWs_space (cs : List Char) : skipWs (' ' :: cs) = skipWs cs := rfl

/-- Every fuel bound is positive. -/
theorem jfuel_pos (v : Json) : 1 ≤ jfuel v := by
  cases v <;> rw [jfuel] <;> omega

/-- Item fuel is positive. -/
theorem jfuelItems_pos (xs : List Json) : 1 ≤ jfuelItems xs := by
  cases xs with
  | nil => rw [jfuelItems]
  | cons x t =>
    rw [jfuelItems]
    have := jfuel_pos x
    omega

/-- Entry fuel is positive. -/
theorem jfuelEntries_pos (kvs : List (String × Json)) : 1 ≤ jfuelEntries kvs := by
  cases kvs with
  | nil => rw [jfuelEntries]
  | cons kv t =>
    obtain ⟨k, v⟩ := kv
    rw [jfuelEntries]
    omega

/-- The serializer's first character is never whitespace nor a closing
bracket. -/
theorem dumpVal_head (l : Nat) (v : Json) :
    ∃ c t, dumpVal l v = c :: t ∧ isWsChar c = false ∧ c ≠ ']' ∧ c ≠ '}' := by
  cases v with
  | null => exact ⟨'n', _, by rw [dumpVal], by decide, by decide, by decide⟩
  | bool b =>
    cases b with
    | true => exact ⟨'t', _, by rw [dumpVal], by decide, by decide, by decide⟩
    | false => exact ⟨'f', _, by rw [dumpVal], by decide, by decide, by decide⟩
  | int n =>
    cases n with
    | ofNat m =>
      obtain ⟨c, t, hct⟩ : ∃ c t, natChars m = c :: t := by
        cases hm : natChars m with
        | nil => exact absurd hm (natChars_ne_nil m)
        | cons c t => exact ⟨c, t, rfl⟩
      have hc : isDigitChar c = true := natChars_digits m c (by rw [hct]; simp)
      obtain ⟨hw, hr, hb, -⟩ := digit_not_special c hc
      exact ⟨c, t, by rw [dumpVal]; exact hct, hw, hr, hb⟩
    | negSucc m =>
      exact ⟨'-', _, by rw [dumpVal]; rfl, by decide, by decide, by decide⟩
  | str s => exact ⟨'"', _, by rw [dumpVal]; rfl, by decide, by decide, by decide⟩
  | arr xs =>
    cases xs with
    | nil => exact ⟨'[', _, by rw [dumpVal], by decide, by decide, by decide⟩
    | cons x t => exact ⟨'[', _, by rw [dumpVal], by decide, by decide, by decide⟩
  | obj kvs =>
    cases kvs with
    | nil => exact ⟨'{', _, by rw [dumpVal], by decide, by decide, by decide⟩
    | cons kv t =>
      obtain ⟨k, v⟩ := kv
      exact ⟨'{', _, by rw [dumpVal], by decide, by decide, by decide⟩

/-- `skipWs` leaves the serializer's output unchanged. -/
theorem skipWs_dumpVal (l : Nat) (v : Json) (z : List Char) :
    skipWs (dumpVal l v ++ z) = dumpVal l v ++ z := by
  obtain ⟨c, t, hct, hw, -, -⟩ := dumpVal_head l v
  rw [hct, List.cons_append, skipWs_not_ws c _ hw]

/-- The continuation after an array item never starts with a digit. -/
theorem notDigitStart_dumpArrRest (l : Nat) (xs : List Json) (z : List Char) :
    notDigitStart (dumpArrRest l xs ++ '\n' :: z) = true := by
  cases xs with
  | nil => rw [dumpArrRest]; rfl
  | cons x t => rw [dumpArrRest]; rfl

/-- The continuation after an object value never starts with a digit. -/
theorem notDigitStart_dumpObjRest (l : Nat) (kvs : List (String × Json)) (z : List Char) :
    notDigitStart (dumpObjRest l kvs ++ '\n' :: z) = true := by
  cases kvs with
  | nil => rw [dumpObjRest]; rfl
  | cons kv t =>
    obtain ⟨k, v⟩ := kv
    rw [dumpObjRest]
    rfl

/-- `skipWs` leaves a string literal unchanged. -/
theorem skipWs_strLit (k : String) (z : List Char) :
    skipWs (strLit k ++ z) = strLit k ++ z := by
  rw [strLit, List.cons_append, skipWs_not_ws '"' _ (by decide)]

/-- Parsing inverts serialisation, with enough fuel: the four mutual
statements for values, array tails, object tails and object entries. -/
theorem parse_dump_all (f : Nat) :
    (∀ v l rest, jfuel v ≤ f → notDigitStart rest = true →
      parseVal f (dumpVal l v ++ rest) = some (v, rest))
    ∧ (∀ xs l rest, jfuelItems xs + 1 ≤ f → notDigitStart rest = true →
      parseArrTail f (skipWs (dumpArrRest (l + 1) xs
        ++ '\n' :: (indentChars l ++ (']' :: rest)))) = some (xs, rest))
    ∧ (∀ kvs l rest, jfuelEntries kvs + 1 ≤ f → notDigitStart rest = true →
      parseObjTail f (skipWs (dumpObjRest (l + 1) kvs
        ++ '\n' :: (indentChars l ++ ('}' :: rest)))) = some (kvs, rest))
    ∧ (∀ k v l rest, jfuel v + 1 ≤ f → notDigitStart rest = true →
      parseObjEntry f (strLit k ++ ':' :: ' ' :: (dumpVal l v ++ rest))
        = some ((k, v), rest)) := by
  induction f with
  | zero =>
    refine ⟨?_, ?_, ?_, ?_⟩
    · intro v l rest hf _
      exact absurd hf (by have := jfuel_pos v; omega)
    · intro xs l rest hf _
      exact absurd hf (by have := jfuelItems_pos xs; omega)
    · intro kvs l rest hf _
      exact absurd hf (by have := jfuelEntries_pos kvs; omega)
    · intro k v l rest hf _
      exact absurd hf (by have := jfuel_pos v; omega)
  | succ f ih =>
    obtain ⟨ihv, iha, iho, ihe⟩ := ih
    refine ⟨?_, ?_, ?_, ?_⟩
    · -- values
      intro v l rest hf hrest
      cases v with
      | null =>
        rw [dumpVal]
        simp only [List.cons_append, List.nil_append]
        exact parseVal_null f rest
      | bool b =>
        cases b with
        | false =>
          rw [dumpVal]
          simp only [List.cons_append, List.nil_append]
          exact parseVal_false f rest
        | true =>
          rw [dumpVal]
          simp only [List.cons_append, List.nil_append]
          exact parseVal_true f rest
      | int n =>
        rw [dumpVal]
        rcases n with m | m
        · obtain ⟨c, t, hct⟩ : ∃ c t, natChars m = c :: t := by
            cases hm : natChars m with
            | nil => exact absurd hm (natChars_ne_nil m)
            | cons c t => exact ⟨c, t, rfl⟩
          have hc : isDigitChar c = true := natChars_digits m c (by rw [hct]; simp)
          obtain ⟨-, -, -, -, -, hn, ht2, hf2, hq, ha, ho⟩ := digit_not_special c hc
          rw [show intChars (Int.ofNat m) = natChars m from rfl, hct,
            List.cons_append, parseVal_num_head f c _ hn ht2 hf2 hq ha ho,
            ← List.cons_append, ← hct]
          exact parseNum_intChars (Int.ofNat m) rest hrest
        · rw [show intChars (Int.negSucc m) = '-' :: natChars (m + 1) from rfl,
            List.cons_append,
            parseVal_num_head f '-' _ (by decide) (by decide) (by decide)
              (by decide) (by decide) (by decide),
            ← List.cons_append,
            show '-' :: natChars (m + 1) = intChars (Int.negSucc m) from rfl]
          exact parseNum_intChars (Int.negSucc m) rest hrest
      | str s =>
        rw [dumpVal, strLit, List.cons_append, List.append_assoc,
          List.singleton_append, parseVal_str, parseStrBody_escape]
      | arr xs =>
        cases xs with
        | nil =>
          rw [dumpVal]
          simp only [List.cons_append, List.nil_append]
          exact parseVal_arr_close f _ rest (skipWs_not_ws ']' rest (by decide))
        | cons x t =>
          rw [jfuel, jfuelItems] at hf
          rw [dumpVal]
          simp only [List.cons_append, List.append_assoc, List.nil_append]
          obtain ⟨c, t', hct, hw, hrb, -⟩ := dumpVal_head (l + 1) x
          have hskip : skipWs ('\n' :: (indentChars (l + 1) ++ (dumpVal (l + 1) x
              ++ (dumpArrRest (l + 1) t ++ '\n' :: (indentChars l ++ (']' :: rest))))))
              = c :: (t' ++ (dumpArrRest (l + 1) t
                ++ '\n' :: (indentChars l ++ (']' :: rest)))) := by
            rw [skipWs_newline, skipWs_indent, hct, List.cons_append,
              skipWs_not_ws c _ hw]
          rw [parseVal_arr f _ _ c hskip hrb]
          have hv1 : parseVal f (dumpVal (l + 1) x ++ (dumpArrRest (l + 1) t
              ++ '\n' :: (indentChars l ++ (']' :: rest)))) = some (x,
              dumpArrRest (l + 1) t ++ '\n' :: (indentChars l ++ (']' :: rest))) :=
            ihv x (l + 1) _ (by omega) (notDigitStart_dumpArrRest _ _ _)
          have ha1 : parseArrTail f (skipWs (dumpArrRest (l + 1) t
              ++ '\n' :: (indentChars l ++ (']' :: rest)))) = some (t, rest) :=
            iha t l rest (by omega) hrest
          rw [show c :: (t' ++ (dumpArrRest (l + 1) t
              ++ '\n' :: (indentChars l ++ (']' :: rest))))
              = dumpVal (l + 1) x ++ (dumpArrRest (l + 1) t
                ++ '\n' :: (indentChars l ++ (']' :: rest)))
            from by rw [hct, List.cons_append]]
          simp only [hv1, ha1]
      | obj kvs =>
        cases kvs with
        | nil =>
          rw [dumpVal]
          simp only [List.cons_append, List.nil_append]
          exact parseVal_obj_close f _ rest (skipWs_not_ws '}' rest (by decide))
        | cons kv t =>
          obtain ⟨k, v⟩ := kv
          rw [jfuel, jfuelEntries] at hf
          rw [dumpVal]
          simp only [List.cons_append, List.append_assoc, List.nil_append]
          have hskip : skipWs ('\n' :: (indentChars (l + 1) ++ (strLit k
              ++ ':' :: ' ' :: (dumpVal (l + 1) v ++ (dumpObjRest (l + 1) t
                ++ '\n' :: (indentChars l ++ ('}' :: rest)))))))
              = '"' :: ((escapeChars k.data ++ ['"'])
                ++ (':' :: ' ' :: (dumpVal (l + 1) v ++ (dumpObjRest (l + 1) t
                  ++ '\n' :: (indentChars l ++ ('}' :: rest)))))) := by
            rw [skipWs_newline, skipWs_indent, strLit, List.cons_append,
              skipWs_not_ws '"' _ (by decide)]
          rw [parseVal_obj f _ _ '"' hskip (by decide)]
          have he1 : parseObjEntry f (strLit k ++ ':' :: ' ' :: (dumpVal (l + 1) v
              ++ (dumpObjRest (l + 1) t ++ '\n' :: (indentChars l ++ ('}' :: rest)))))
              = some ((k, v), dumpObjRest (l + 1) t
                ++ '\n' :: (indentChars l ++ ('}' :: rest))) :=
            ihe k v (l + 1) _ (by omega) (notDigitStart_dumpObjRest _ _ _)
          have ho1 : parseObjTail f (skipWs (dumpObjRest (l + 1) t
              ++ '\n' :: (indentChars l ++ ('}' :: rest)))) = some (t, rest) :=
            iho t l rest (by omega) hrest
          rw [show ('"' : Char) :: ((escapeChars k.data ++ ['"'])
              ++ (':' :: ' ' :: (dumpVal (l + 1) v ++ (dumpObjRest (l + 1) t
                ++ '\n' :: (indentChars l ++ ('}' :: rest))))))
              = strLit k ++ ':' :: ' ' :: (dumpVal (l + 1) v ++ (dumpObjRest (l + 1) t
                ++ '\n' :: (indentChars l ++ ('}' :: rest))))
            from by rw [strLit, List.cons_append]]
          simp only [he1, ho1]
    · -- array tails
      intro xs l rest hf hrest
      cases xs with
      | nil =>
        rw [dumpArrRest]
        simp only [List.nil_append]
        rw [skipWs_newline, skipWs_indent, skipWs_not_ws ']' _ (by decide)]
        exact parseArrTail_close f rest
      | cons x t =>
        rw [jfuelItems] at hf
        rw [dumpArrRest]
        simp only [List.cons_append, List.append_assoc, List.nil_append]
        rw [skipWs_not_ws ',' _ (by decide), parseArrTail_comma]
        have hskip : skipWs ('\n' :: (indentChars (l + 1) ++ (dumpVal (l + 1) x
            ++ (dumpArrRest (l + 1) t ++ '\n' :: (indentChars l ++ (']' :: rest))))))
            = dumpVal (l + 1) x ++ (dumpArrRest (l + 1) t
              ++ '\n' :: (indentChars l ++ (']' :: rest))) := by
          rw [skipWs_newline, skipWs_indent, skipWs_dumpVal]
        rw [hskip]
        have hv1 : parseVal f (dumpVal (l + 1) x ++ (dumpArrRest (l + 1) t
            ++ '\n' :: (indentChars l ++ (']' :: rest)))) = some (x,
            dumpArrRest (l + 1) t ++ '\n' :: (indentChars l ++ (']' :: rest))) :=
          ihv x (l + 1) _ (by omega) (notDigitStart_dumpArrRest _ _ _)
        have ha1 : parseArrTail f (skipWs (dumpArrRest (l + 1) t
            ++ '\n' :: (indentChars l ++ (']' :: rest)))) = some (t, rest) :=
          iha t l rest (by omega) hrest
        simp only [hv1, ha1]
    · -- object tails
      intro kvs l rest hf hrest
      cases kvs with
      | nil =>
        rw [dumpObjRest]
        simp only [List.nil_append]
        rw [skipWs_newline, skipWs_indent, skipWs_not_ws '}' _ (by decide)]
        exact parseObjTail_close f rest
      | cons kv t =>
        obtain ⟨k, v⟩ := kv
        rw [jfuelEntries] at hf
        rw [dumpObjRest]
        simp only [List.cons_append, List.append_assoc, List.nil_append]
        rw [skipWs_not_ws ',' _ (by decide), parseObjTail_comma]
        have hskip : skipWs ('\n' :: (indentChars (l + 1) ++ (strLit k
            ++ ':' :: ' ' :: (dumpVal (l + 1) v ++ (dumpObjRest (l + 1) t
              ++ '\n' :: (indentChars l ++ ('}' :: rest)))))))
            = strLit k ++ ':' :: ' ' :: (dumpVal (l + 1) v ++ (dumpObjRest (l + 1) t
              ++ '\n' :: (indentChars l ++ ('}' :: rest)))) := by
          rw [skipWs_newline, skipWs_indent, skipWs_strLit]
        rw [hskip]
        have he1 : parseObjEntry f (strLit k ++ ':' :: ' ' :: (dumpVal (l + 1) v
            ++ (dumpObjRest (l + 1) t ++ '\n' :: (indentChars l ++ ('}' :: rest)))))
            = some ((k, v), dumpObjRest (l + 1) t
              ++ '\n' :: (indentChars l ++ ('}' :: rest))) :=
          ihe k v (l + 1) _ (by omega) (notDigitStart_dumpObjRest _ _ _)
        have ho1 : parseObjTail f (skipWs (dumpObjRest (l + 1) t
            ++ '\n' :: (indentChars l ++ ('}' :: rest)))) = some (t, rest) :=
          iho t l rest (by omega) hrest
        simp only [he1, ho1]
    · -- object entries
      intro k v l rest hf hrest
      rw [strLit]
      simp only [List.cons_append, List.append_assoc, List.singleton_append]
      rw [parseObjEntry_quote, parseStrBody_escape]
      have hv1 : parseVal f (dumpVal l v ++ rest) = some (v, rest) :=
        ihv v l rest (by omega) hrest
      have hsk : skipWs (':' :: ' ' :: (dumpVal l v ++ rest))
          = ':' :: ' ' :: (dumpVal l v ++ rest) :=
        skipWs_not_ws ':' _ (by decide)
      have hsk2 : skipWs (' ' :: (dumpVal l v ++ rest)) = dumpVal l v ++ rest := by
        rw [skipWs_space, skipWs_dumpVal]
      simp only [List.nil_append, hsk, hsk2, hv1]
      simp

/-- The parser fuel needed for a value is within one of the length of its
serialisation (stated for values, array items and object entries at once,
by strong induction on size). -/
theorem jfuel_le_dump (N : Nat) :
    (∀ (l : Nat) (v : Json), sizeOf v ≤ N →
      jfuel v ≤ (dumpVal l v).length + 1)
    ∧ (∀ (l : Nat) (xs : List Json), sizeOf xs ≤ N →
      jfuelItems xs ≤ (dumpArrRest l xs).length + 1)
    ∧ (∀ (l : Nat) (kvs : List (String × Json)), sizeOf kvs ≤ N →
      jfuelEntries kvs ≤ (dumpObjRest l kvs).length + 1) := by
  induction N with
  | zero =>
    refine ⟨?_, ?_, ?_⟩
    · intro l v hs
      cases v <;> simp at hs
    · intro l xs hs
      cases xs <;> simp at hs
    · intro l kvs hs
      cases kvs <;> simp at hs
  | succ N ih =>
    obtain ⟨ihv, ihi, ihe⟩ := ih
    refine ⟨?_, ?_, ?_⟩
    · intro l v hs
      cases v with
      | null => rw [jfuel]; omega
      | bool b => rw [jfuel]; omega
      | int n => rw [jfuel]; omega
      | str s => rw [jfuel]; omega
      | arr xs =>
        simp at hs
        cases xs with
        | nil => rw [jfuel, jfuelItems, dumpVal]; simp
        | cons x t =>
          rw [jfuel, dumpVal]
          have h1 := ihv (l + 1) x (by simp at hs ⊢; omega)
          have h2 := ihi (l + 1) t (by simp at hs ⊢; omega)
          rw [jfuelItems]
          simp only [List.length_cons, List.length_append, indentChars,
            List.length_replicate]
          omega
      | obj kvs =>
        simp at hs
        cases kvs with
        | nil => rw [jfuel, jfuelEntries, dumpVal]; simp
        | cons kv t =>
          obtain ⟨k, v⟩ := kv
          rw [jfuel, dumpVal]
          have h1 := ihv (l + 1) v (by simp at hs ⊢; omega)
          have h2 := ihe (l + 1) t (by simp at hs ⊢; omega)
          rw [jfuelEntries]
          simp only [List.length_cons, List.length_append, indentChars,
            List.length_replicate]
          omega
    · intro l xs hs
      cases xs with
      | nil => rw [jfuelItems, dumpArrRest]; simp
      | cons x t =>
        rw [jfuelItems, dumpArrRest]
        simp at hs
        have h1 := ihv l x (by omega)
        have h2 := ihi l t (by omega)
        simp only [List.length_cons, List.length_append, indentChars,
          List.length_replicate]
        omega
    · intro l kvs hs
      cases kvs with
      | nil => rw [jfuelEntries, dumpObjRest]; simp
      | cons kv t =>
        obtain ⟨k, v⟩ := kv
        rw [jfuelEntries, dumpObjRest]
        simp at hs
        have h1 := ihv l v (by omega)
        have h2 := ihe l t (by omega)
        simp only [List.length_cons, List.length_append, indentChars,
          List.length_replicate]
        omega

/-- C8: for every Raw Response value, `save_json` writes text that the
Data Loader parses back to a value deep-equal to the original (the
round-trip holds for any JSON document over null, booleans, integers,
strings — non-ASCII characters preserved verbatim by
`ensure_ascii=False` — arrays and objects). -/
theorem c8_save_json_roundtrip (e : NewsDataExporter) (data : Json)
    (fn : Option String) :
    load_from_text (e.save_json data fn).content = .ok data := by
  show load_from_text (dumps data) = .ok data
  have hskip : skipWs (dumps data).data = dumpVal 0 data := by
    have := skipWs_dumpVal 0 data []
    simpa using this
  have hfuel : jfuel data ≤ (dumpVal 0 data).length + 1 :=
    (jfuel_le_dump (sizeOf data)).1 0 data le_rfl
  have hparse : parseVal ((dumps data).data.length + 1) (dumpVal 0 data ++ [])
      = some (data, []) :=
    (parse_dump_all _).1 data 0 [] (by simpa [dumps] using hfuel) rfl
  rw [List.append_nil] at hparse
  unfold load_from_text
  rw [hskip, hparse]
  rfl
